import Mathlib

/-!
Verification development for the amount-extraction engine in
`src/extract_amount.py`.

The Python module is shallowly embedded below.  Strings are handled as
`List Char` (Python `str` indices coincide with character-list indices),
Python `decimal.Decimal` values are represented exactly by a coefficient
and a non-negative decimal scale (every `Decimal` constructed by this
program is non-negative and has exponent `≤ 0`), and code that can raise
an exception is embedded in `Except PyErr`.

Modelling notes on character classes: the regexes run over `str` with
Python's unicode classes.  The texts this engine is designed for are
ASCII apart from the rupee sign, so `\d`, `\s` and `\w` are modelled by
their ASCII meaning (the rupee sign is neither a digit, a space nor a
word character in Python either).
-/

-- ---------------------------------------------------------------------
-- Character helpers
-- ---------------------------------------------------------------------

/-- Python `\d` (ASCII model). -/

def isDigitCh (c : Char) : Bool := c.isDigit

/-- Python `\s` (ASCII model: space, tab, newline, CR, FF, VT). -/
def isPySpace (c : Char) : Bool :=
  c = ' ' || c = '\t' || c = '\n' || c = '\r' || c = '\x0c' || c = '\x0b'

/-- Python `\w` (ASCII model: letters, digits, underscore). -/
def isWordCh (c : Char) : Bool := c.isAlpha || c.isDigit || c = '_'

def isWordOpt : Option Char → Bool
  | none => false
  | some c => isWordCh c

/-- numeric value of a decimal digit character. -/
def chVal (c : Char) : Nat := c.toNat - 48

/-- decimal digit character of a value `< 10`. -/
def digitCh (d : Nat) : Char := Char.ofNat (48 + d)

-- ---------------------------------------------------------------------
-- Decimal digit strings
-- ---------------------------------------------------------------------

/-- Read a digit string (most significant first) as a number. -/
def foldDigits (acc : Nat) : List Char → Nat
  | [] => acc
  | c :: cs => foldDigits (acc * 10 + chVal c) cs

/-- Digit values of `n`, most significant first (`fuel`-bounded recursion;
the fuel only needs to exceed the number of digits). -/
def natDigitsAux : Nat → Nat → List Nat
  | 0, _ => []
  | fuel + 1, n => if n < 10 then [n] else natDigitsAux fuel (n / 10) ++ [n % 10]

def natDigits (n : Nat) : List Nat := natDigitsAux (n + 1) n

/-- Decimal digit characters of `n`, as `str(n)` gives them. -/
def natToChars (n : Nat) : List Char := (natDigits n).map digitCh

-- ---------------------------------------------------------------------
-- Python `decimal.Decimal` values
-- ---------------------------------------------------------------------

/-- A Python `Decimal` as this program constructs them: non-negative, with
exponent `≤ 0`; the value is `coeff / 10 ^ scale`.  (Every `Decimal` built by
`extract_amount.py` comes from an unsigned digit string without exponent, or
from a non-negative integer, or from multiplying such values by integer powers
of ten, so sign and positive exponents never occur.) -/
structure Dec where
  coeff : Nat
  scale : Nat
deriving DecidableEq

/-- `Decimal` multiplication by an integral `Decimal` (the multipliers
`1`, `1000`, ..., `10**9`): coefficients multiply, exponents add. -/
def Dec.mulNat (d : Dec) (k : Nat) : Dec := ⟨d.coeff * k, d.scale⟩

/-- `int(d.to_integral_value(rounding='ROUND_HALF_UP'))` for our
non-negative values: ties round up. -/
def Dec.roundHalfUp (d : Dec) : Nat :=
  d.coeff / 10 ^ d.scale + (if 10 ^ d.scale ≤ 2 * (d.coeff % 10 ^ d.scale) then 1 else 0)

/-- `Decimal` comparison `d > n` against a natural bound (exact rational
comparison, as Python's `Decimal.__gt__`). -/
def Dec.gtNat (d : Dec) (n : Nat) : Bool := decide (n * 10 ^ d.scale < d.coeff)

/-- `Decimal` comparison `d ≤ n`. -/
def Dec.leNat (d : Dec) (n : Nat) : Bool := decide (d.coeff ≤ n * 10 ^ d.scale)

/-- Mantissa digits of the scientific form: a dot after the first digit
when there is more than one. -/
def sciMantissa : List Char → List Char
  | [] => []
  | [c] => [c]
  | c :: rest => c :: '.' :: rest

/-- `str(d)` for our `Decimal` values, following `Decimal.__str__`: plain
positional notation while the adjusted exponent is at least `-6`, otherwise
scientific notation (`5E-7`, `1.23E-8`). -/
def Dec.toChars (d : Dec) : List Char :=
  let ds := natToChars d.coeff
  let L := ds.length
  if d.scale = 0 then ds
  else if d.scale ≤ L + 5 then
    if d.scale < L then ds.take (L - d.scale) ++ '.' :: ds.drop (L - d.scale)
    else '0' :: '.' :: (List.replicate (d.scale - L) '0' ++ ds)
  else
    sciMantissa ds ++ 'E' :: '-' :: natToChars (d.scale + 1 - L)

def Dec.toStr (d : Dec) : String := String.mk d.toChars

-- ---------------------------------------------------------------------
-- The `Decimal(str)` constructor
-- ---------------------------------------------------------------------

def dropTrailingWhile (p : Char → Bool) (l : List Char) : List Char :=
  (l.reverse.dropWhile p).reverse

/-- Python `str.strip()` (ASCII-whitespace model). -/
def pyStrip (l : List Char) : List Char :=
  dropTrailingWhile isPySpace (l.dropWhile isPySpace)

/-- Leading digit run and the remainder. -/
def splitDigits (l : List Char) : List Char × List Char :=
  (l.takeWhile isDigitCh, l.drop (l.takeWhile isDigitCh).length)

/-- Exponent tail of a `Decimal` literal: optional sign, then digits,
nothing after. -/
def parseExpPart (l : List Char) : Option Int :=
  match l with
  | '-' :: r =>
    (fun p => if p.1 = ([] : List Char) ∨ p.2 ≠ ([] : List Char) then none
              else some (-(foldDigits 0 p.1 : Int))) (splitDigits r)
  | '+' :: r =>
    (fun p => if p.1 = ([] : List Char) ∨ p.2 ≠ ([] : List Char) then none
              else some ((foldDigits 0 p.1 : Int))) (splitDigits r)
  | r =>
    (fun p => if p.1 = ([] : List Char) ∨ p.2 ≠ ([] : List Char) then none
              else some ((foldDigits 0 p.1 : Int))) (splitDigits r)

/-- Combine coefficient digits, fraction length and exponent.  The net
exponent is `e - fracLen`; every literal this program ever parses has a
non-positive net exponent (no call site produces one with a positive net
exponent), so those are not representable and map to `none`. -/
def pyDecimalExp (co : Nat) (fracLen : Nat) (l : List Char) : Option Dec :=
  match parseExpPart l with
  | none => none
  | some e => if e ≤ (fracLen : Int) then some ⟨co, ((fracLen : Int) - e).toNat⟩ else none

def pyDecimalAfterFrac (ip fp r3 : List Char) : Option Dec :=
  if ip ++ fp = [] then none
  else
    match r3 with
    | [] => some ⟨foldDigits 0 (ip ++ fp), fp.length⟩
    | 'E' :: r4 => pyDecimalExp (foldDigits 0 (ip ++ fp)) fp.length r4
    | 'e' :: r4 => pyDecimalExp (foldDigits 0 (ip ++ fp)) fp.length r4
    | _ => none

def pyDecimalAfterInt (ip r1 : List Char) : Option Dec :=
  match r1 with
  | '.' :: r2 => pyDecimalAfterFrac ip (splitDigits r2).1 (splitDigits r2).2
  | r1 => pyDecimalAfterFrac ip [] r1

/-- `decimal.Decimal(s)` on the literals this program can build: optional
whitespace, digits, optional `.` and fraction digits (at least one digit in
all), optional exponent.  `Infinity`/`NaN`/signed literals never occur at any
call site and are not modelled; the result is `none` exactly when the real
constructor raises `decimal.InvalidOperation` (or when the literal is of the
never-occurring positive-net-exponent shape). -/
def pyDecimalOfChars (l : List Char) : Option Dec :=
  pyDecimalAfterInt (splitDigits (pyStrip l)).1 (splitDigits (pyStrip l)).2

-- ---------------------------------------------------------------------
-- parse_amount_string
-- ---------------------------------------------------------------------

/-- The one exception `extract_amounts` can propagate:
`decimal.InvalidOperation` from the `Decimal` constructor. -/
inductive PyErr where
  | invalidOperation
deriving DecidableEq

/-- `\b` between two (possibly absent) adjacent characters: exactly one
side is a word character. -/
def isBoundary (left right : Option Char) : Bool := isWordOpt left != isWordOpt right

/-- Exact-prefix match, returning the remainder. -/
def matchesExact : List Char → List Char → Option (List Char)
  | [], rest => some rest
  | _ :: _, [] => none
  | a :: as, c :: cs => if c = a then matchesExact as cs else none

/-- One of the literal alternatives matches at this position, with word
boundaries on both sides. -/
def altHitsAt (alts : List (List Char)) (prev : Option Char) (cs : List Char) : Bool :=
  alts.any fun a =>
    match matchesExact a cs with
    | none => false
    | some rest => isBoundary prev cs.head? && isBoundary a.getLast? rest.head?

/-- `re.search(r'\b(w1|w2|...)\b', m)` for an alternation of literal words
(as a Bool: the code only tests truthiness of the match). -/
def wordSearch (alts : List (List Char)) : Option Char → List Char → Bool
  | _, [] => false
  | prev, c :: cs => altHitsAt alts prev (c :: cs) || wordSearch alts (some c) cs

-- `r'\b(lakh|lac|lacs|lakh?s)\b'`; `lakh?s` is the two literals "lakhs"/"laks".
def lakhAlts : List (List Char) :=
  ["lakh".data, "lac".data, "lacs".data, "lakhs".data, "laks".data]

-- `r'\b(crore|cr|cr\.|crore?s)\b'`; `crore?s` is "crores"/"crors".
def croreAlts : List (List Char) :=
  ["crore".data, "cr".data, "cr.".data, "crores".data, "crors".data]

-- `r'\b(k|thousand|k\.|thou)\b'`
def thousandAlts : List (List Char) :=
  ["k".data, "thousand".data, "k.".data, "thou".data]

-- `r'\b(million|m|mn|m\.|millions)\b'`
def millionAlts : List (List Char) :=
  ["million".data, "m".data, "mn".data, "m.".data, "millions".data]

-- `r'\b(billion|bn|b)\b'`
def billionAlts : List (List Char) :=
  ["billion".data, "bn".data, "b".data]

def endsWithCh (c : Char) (l : List Char) : Bool :=
  match l.getLast? with
  | some x => x = c
  | none => false

def lowerList (l : List Char) : List Char := l.map Char.toLower

/-- The multiplier/unit cascade of `parse_amount_string` (lines 22-39),
applied to the already lowered and stripped suffix. -/
def resolveMult (m : List Char) : Nat × Option (List Char) :=
  if wordSearch lakhAlts none m || (m = "l".data || m = "lk".data) then
    (100000, some "lakh".data)
  else if wordSearch croreAlts none m then (10000000, some "crore".data)
  else if wordSearch thousandAlts none m then (1000, some "thousand".data)
  else if wordSearch millionAlts none m then (1000000, some "million".data)
  else if wordSearch billionAlts none m then (1000000000, some "billion".data)
  else if endsWithCh 'k' m then (1000, some "thousand".data)
  else if endsWithCh 'm' m then (1000000, some "million".data)
  else if endsWithCh 'l' m then (100000, some "lakh".data)
  else (1, none)

/-- The multiplier part of `parse_amount_string`: empty suffix means
multiplier 1 and no unit, otherwise lower, strip and run the cascade. -/
def multOfSuffix (mulStr : List Char) : Nat × Option (List Char) :=
  if mulStr.isEmpty then (1, none)
  else resolveMult (pyStrip (lowerList mulStr))

/-- `num_str.replace(',', '').replace(' ', '').strip()`. -/
def numCleanOf (numStr : List Char) : List Char :=
  pyStrip (numStr.filter (fun c => c != ',' && c != ' '))

/-- The fallback argument: everything but digits and dots stripped
(`re.sub(r'[^\d\.]', '', num_clean)`), `'0'` if that is empty. -/
def pyFallbackChars (numClean : List Char) : List Char :=
  if (numClean.filter (fun c => isDigitCh c || c == '.')).isEmpty then ['0']
  else numClean.filter (fun c => isDigitCh c || c == '.')

/-- `parse_amount_string(num_str, multiplier_str)`: strip commas and spaces,
parse as `Decimal`, on failure parse the fallback string; a second failure
propagates `decimal.InvalidOperation`.  Then resolve the multiplier suffix. -/
def pyParseAmountString (numStr mulStr : List Char) :
    Except PyErr (Dec × Nat × Option (List Char)) :=
  match pyDecimalOfChars (numCleanOf numStr) with
  | some base => .ok (base, (multOfSuffix mulStr).1, (multOfSuffix mulStr).2)
  | none =>
    match pyDecimalOfChars (pyFallbackChars (numCleanOf numStr)) with
    | some base => .ok (base, (multOfSuffix mulStr).1, (multOfSuffix mulStr).2)
    | none => .error PyErr.invalidOperation

-- ---------------------------------------------------------------------
-- The numeric token pattern (lines 54-62) and its finditer scan
-- ---------------------------------------------------------------------

/-- Case-insensitive literal prefix match, returning the matched original
characters (the capture keeps the original case) and the remainder. -/
def ciPrefix : List Char → List Char → Option (List Char × List Char)
  | [], cs => some ([], cs)
  | _ :: _, [] => none
  | a :: as, c :: cs =>
    if c.toLower = a.toLower then
      match ciPrefix as cs with
      | none => none
      | some (m, rest) => some (c :: m, rest)
    else none

-- `₹|rs\.?|inr|usd|\$` in alternation order; the greedy `rs\.?` tries
-- "rs." before "rs".
def currencyCands : List (List Char) :=
  ["₹".data, "rs.".data, "rs".data, "inr".data, "usd".data, "$".data]

def dropTrailingNonDigits (l : List Char) : List Char :=
  dropTrailingWhile (fun c => !isDigitCh c) l

/-- `(?P<number>\d[\d,\.]*\d|\d+)`: the first alternative takes the longest
run of digits/commas/dots after the leading digit that still ends in a digit
(greedy `[\d,\.]*` backtracking to a final `\d`); when the run holds no
digit the second alternative `\d+` applies. -/
def matchNumberTok (cs : List Char) : Option (List Char × List Char) :=
  match cs with
  | [] => none
  | c :: rest =>
    if isDigitCh c then
      if (dropTrailingNonDigits
          (rest.takeWhile (fun x => isDigitCh x || x == ',' || x == '.'))).isEmpty then
        some (c :: rest.takeWhile isDigitCh, rest.drop (rest.takeWhile isDigitCh).length)
      else
        some (c :: dropTrailingNonDigits
            (rest.takeWhile (fun x => isDigitCh x || x == ',' || x == '.')),
          rest.drop (dropTrailingNonDigits
            (rest.takeWhile (fun x => isDigitCh x || x == ',' || x == '.'))).length)
    else none

-- `(?:crore|cr\.?|cr|lakh|lac|lacs|l|k|k\.|thousand|million|m|mn|bn|b)` in
-- alternation order (`cr\.?` prefers "cr.").
def suffixAlts : List (List Char) :=
  ["crore".data, "cr.".data, "cr".data, "lakh".data, "lac".data, "lacs".data,
   "l".data, "k".data, "k.".data, "thousand".data, "million".data, "m".data,
   "mn".data, "bn".data, "b".data]

def firstCiPrefix (alts : List (List Char)) (cs : List Char) :
    Option (List Char × List Char) :=
  match alts with
  | [] => none
  | a :: rest =>
    match ciPrefix a cs with
    | some r => some r
    | none => firstCiPrefix rest cs

/-- `(?P<suffix>(?:...)s?\.?)`: one keyword alternative, then an optional
(case-insensitive) `s`, then an optional period. -/
def matchSuffixTok (cs : List Char) : Option (List Char × List Char) :=
  match firstCiPrefix suffixAlts cs with
  | none => none
  | some (m, rest) =>
    match rest with
    | c :: cs1 =>
      if c.toLower = 's' then
        match cs1 with
        | c2 :: cs2 => if c2 = '.' then some (m ++ [c, c2], cs2) else some (m ++ [c], cs1)
        | [] => some (m ++ [c], cs1)
      else if c = '.' then some (m ++ [c], cs1)
      else some (m, rest)
    | [] => some (m, rest)

/-- `\s*` then the number literal (shared by both branches). -/
def spacesNumber (cs : List Char) : Option (List Char × List Char) :=
  matchNumberTok (cs.dropWhile isPySpace)

/-- Branch A after its optional currency: `\s* number \s* suffix?`.
Returns (number group, final remainder, suffix group). -/
def contA (cs : List Char) : Option (List Char × List Char × Option (List Char)) :=
  match spacesNumber cs with
  | none => none
  | some (num, rest) =>
    match matchSuffixTok (rest.dropWhile isPySpace) with
    | some (suf, rest3) => some (num, rest3, some suf)
    | none => some (num, rest.dropWhile isPySpace, none)

/-- Branch B after its mandatory currency: `\s* number`. -/
def contB (cs : List Char) : Option (List Char × List Char) :=
  spacesNumber cs

/-- Branch A: the optional currency alternatives in order, then without a
currency.  Result: (currency group, number group, final remainder, suffix
group). -/
def branchA_aux :
    List (List Char) → List Char →
      Option (Option (List Char) × List Char × List Char × Option (List Char))
  | [], cs => (contA cs).map (fun r => (none, r.1, r.2.1, r.2.2))
  | cand :: rest, cs =>
    match ciPrefix cand cs with
    | some (mark, cs1) =>
      match contA cs1 with
      | some (num, r, suf) => some (some mark, num, r, suf)
      | none => branchA_aux rest cs
    | none => branchA_aux rest cs

/-- Branch B: a mandatory currency alternative, then `\s* number`. -/
def branchB_aux :
    List (List Char) → List Char → Option (List Char × List Char × List Char)
  | [], _ => none
  | cand :: rest, cs =>
    match ciPrefix cand cs with
    | some (mark, cs1) =>
      match contB cs1 with
      | some (num, r) => some (mark, num, r)
      | none => branchB_aux rest cs
    | none => branchB_aux rest cs

/-- The five named groups of `pattern` (`None` = group did not participate). -/
structure NumGroups where
  number : Option (List Char)
  currencyMark : Option (List Char)
  suffix : Option (List Char)
  number2 : Option (List Char)
  currencyMark2 : Option (List Char)
deriving DecidableEq

/-- A match attempt of `pattern` at one position: branch A first, branch B
otherwise (regex alternation order).  Returns match length and groups. -/
def tokenMatchAt (cs : List Char) : Option (Nat × NumGroups) :=
  match branchA_aux currencyCands cs with
  | some (mark, num, rest, suf) =>
    some (cs.length - rest.length, ⟨some num, mark, suf, none, none⟩)
  | none =>
    match branchB_aux currencyCands cs with
    | some (mark, num, rest) =>
      some (cs.length - rest.length, ⟨none, none, none, some num, some mark⟩)
    | none => none

/-- `pattern.finditer`: left-to-right, non-overlapping; scanning resumes at
each match end.  Output: (start position, length, groups). -/
def numFinditer : Nat → Nat → List Char → List (Nat × Nat × NumGroups)
  | 0, _, _ => []
  | fuel + 1, pos, cs =>
    match cs with
    | [] => []
    | _ :: rest =>
      match tokenMatchAt cs with
      | some (len, g) =>
        (pos, len, g) :: numFinditer fuel (pos + max len 1) (cs.drop (max len 1))
      | none => numFinditer fuel (pos + 1) rest

def numScan (cs : List Char) : List (Nat × Nat × NumGroups) :=
  numFinditer (cs.length + 1) 0 cs

-- ---------------------------------------------------------------------
-- AmountMention records and the numeric loop (lines 85-121)
-- ---------------------------------------------------------------------

/-- One output record of `extract_amounts` (the dict of lines 112-121;
`end` is called `endPos`, Lean reserves `end`). -/
structure Mention where
  text : String
  start : Nat
  endPos : Nat
  currency : String
  value : Nat
  unit_multiplier : String
  raw_number : String
  suffix : Option String
deriving DecidableEq

/-- Python truthiness of an optional capture. -/
def truthy (o : Option (List Char)) : Bool :=
  match o with
  | none => false
  | some l => !l.isEmpty

/-- `m.group(...) or ''`. -/
def orEmpty (o : Option (List Char)) : List Char :=
  match o with
  | none => []
  | some l => l

/-- Lines 89-96: `(num_str, suffix, currency)` from the groups, branch A
when the `number` group is truthy, branch B otherwise. -/
def groupsExtract (g : NumGroups) : List Char × List Char × List Char :=
  if truthy g.number then (orEmpty g.number, orEmpty g.suffix, orEmpty g.currencyMark)
  else (orEmpty g.number2, [], orEmpty g.currencyMark2)

/-- Lines 97-105 plus the `cur or 'unknown'` of line 116: canonicalize the
currency marker (lower-case, periods removed, stripped); an absent or empty
result is `"unknown"`. -/
def mentionCurrency (currency : List Char) : String :=
  if currency.isEmpty then "unknown"
  else
    if pyStrip ((lowerList currency).filter (fun x => x != '.')) = "$".data ∨
        pyStrip ((lowerList currency).filter (fun x => x != '.')) = "usd".data then "USD"
    else if pyStrip ((lowerList currency).filter (fun x => x != '.')) = "₹".data ∨
        pyStrip ((lowerList currency).filter (fun x => x != '.')) = "rs".data ∨
        pyStrip ((lowerList currency).filter (fun x => x != '.')) = "inr".data then "INR"
    else if (pyStrip currency).isEmpty then "unknown"
    else String.mk (pyStrip currency)

/-- `unit or (str(int(mult)) if mult != 1 else '1')` (line 118). -/
def unitMultStr (unit : Option (List Char)) (mult : Nat) : String :=
  match unit with
  | some u => String.mk u
  | none => if mult ≠ 1 then String.mk (natToChars mult) else "1"

/-- `suffix or None` (line 120). -/
def suffixField (suffix : List Char) : Option String :=
  if suffix.isEmpty then none else some (String.mk suffix)

/-- The body of the numeric loop for one match (lines 86-121): extract the
groups, parse, drop implausibly large bases (`base > 100000000`), otherwise
build the record. -/
def mentionOfNumeric (td : List Char) (pos len : Nat) (g : NumGroups) :
    Except PyErr (Option Mention) :=
  match pyParseAmountString (groupsExtract g).1 (groupsExtract g).2.1 with
  | .error e => .error e
  | .ok (base, mult, unit) =>
    if base.gtNat 100000000 then .ok none
    else .ok (some
      { text := String.mk ((td.drop pos).take len)
        start := pos
        endPos := pos + len
        currency := mentionCurrency (groupsExtract g).2.2
        value := (base.mulNat mult).roundHalfUp
        unit_multiplier := unitMultStr unit mult
        raw_number := String.mk base.toChars
        suffix := suffixField (groupsExtract g).2.1 })

def numericLoop (td : List Char) :
    List (Nat × Nat × NumGroups) → Except PyErr (List Mention)
  | [] => .ok []
  | (pos, len, g) :: rest =>
    match mentionOfNumeric td pos len g with
    | .error e => .error e
    | .ok none => numericLoop td rest
    | .ok (some m) =>
      match numericLoop td rest with
      | .error e => .error e
      | .ok l => .ok (m :: l)

-- ---------------------------------------------------------------------
-- The worded token pattern (line 67) and the word-to-number path
-- ---------------------------------------------------------------------

/-- Maximal extension of `(?:\w+\s?)+` from this position: word characters
and single spaces (each space preceded by a word character), stopping at any
other character or at a second consecutive space.  Every non-zero prefix
length up to this maximum is attainable by the group, and backtracking visits
them in decreasing order. -/
def wordRunLen : Bool → List Char → Nat
  | _, [] => 0
  | prevSpace, c :: cs =>
    if isWordCh c then 1 + wordRunLen false cs
    else if isPySpace c then (if prevSpace then 0 else 1 + wordRunLen true cs)
    else 0

-- group 2 of `word_pattern`: `(lakh|lac|lacs|crore|cr|million|m)?`
def wordSufAlts : List (List Char) :=
  ["lakh".data, "lac".data, "lacs".data, "crore".data, "cr".data,
   "million".data, "m".data]

/-- Try the group-2 alternatives in order at this position; each must be
followed by a word boundary. -/
def g2Alts : List (List Char) → List Char → Option (List Char × List Char)
  | [], _ => none
  | a :: rest, cs =>
    match ciPrefix a cs with
    | some (m2, rest2) =>
      if isBoundary m2.getLast? rest2.head? then some (m2, rest2) else g2Alts rest cs
    | none => g2Alts rest cs

/-- One backtracking state of the tail `\s*(group2)?\b` after group 1: `t`
whitespace characters consumed, then either a group-2 alternative (its own
trailing boundary already checked) or the bare boundary. -/
def wordTailStep (left : Char) (after : List Char) (t : Nat) :
    Option (Nat × Option (List Char)) :=
  match g2Alts wordSufAlts (after.drop t) with
  | some (m2, _) => some (t + m2.length, some m2)
  | none =>
    if ((if t = 0 then isWordCh left else false) != isWordOpt (after.drop t).head?) then
      some (t, none)
    else none

/-- Greedy `\s*`: try the longest whitespace run first, then shorter. -/
def wordTailDown (left : Char) (after : List Char) : Nat → Option (Nat × Option (List Char))
  | 0 => wordTailStep left after 0
  | t + 1 =>
    match wordTailStep left after (t + 1) with
    | some r => some r
    | none => wordTailDown left after t

/-- Greedy group 1: try the longest attainable run first, then shorter.
Returns (total length, group 1, group 2). -/
def wordQDown (cs : List Char) : Nat → Option (Nat × List Char × Option (List Char))
  | 0 => none
  | q + 1 =>
    match wordTailDown ((cs.drop q).headD ' ') (cs.drop (q + 1))
        ((cs.drop (q + 1)).takeWhile isPySpace).length with
    | some (extra, g2) => some (q + 1 + extra, cs.take (q + 1), g2)
    | none => wordQDown cs q

/-- A match attempt of `word_pattern` at one position: the leading `\b`
followed by `\w` requires a word character not preceded by one. -/
def wordMatchAt (prev : Option Char) (cs : List Char) :
    Option (Nat × List Char × Option (List Char)) :=
  match cs with
  | [] => none
  | c :: _ =>
    if isWordCh c && !(isWordOpt prev) then wordQDown cs (wordRunLen false cs)
    else none

/-- `word_pattern.finditer`: left-to-right, non-overlapping. -/
def wordFinditer : Nat → Option Char → Nat → List Char →
    List (Nat × Nat × List Char × Option (List Char))
  | 0, _, _, _ => []
  | fuel + 1, prev, pos, cs =>
    match cs with
    | [] => []
    | c :: rest =>
      match wordMatchAt prev cs with
      | some (len, g1, g2) =>
        (pos, len, g1, g2) ::
          wordFinditer fuel (cs.take (max len 1)).getLast? (pos + max len 1)
            (cs.drop (max len 1))
      | none => wordFinditer fuel (some c) (pos + 1) rest

def wordScan (cs : List Char) : List (Nat × Nat × List Char × Option (List Char)) :=
  wordFinditer (cs.length + 1) none 0 cs

/-- Modelled from the spec: the external `word2number` library
(`w2n.word_to_num`), which is not part of this repository, maps one English
number word to its value (§4.3 of the spec). -/
def w2nWordValue (w : List Char) : Option Nat :=
  if w = "zero".data then some 0
  else if w = "one".data then some 1
  else if w = "two".data then some 2
  else if w = "three".data then some 3
  else if w = "four".data then some 4
  else if w = "five".data then some 5
  else if w = "six".data then some 6
  else if w = "seven".data then some 7
  else if w = "eight".data then some 8
  else if w = "nine".data then some 9
  else if w = "ten".data then some 10
  else if w = "eleven".data then some 11
  else if w = "twelve".data then some 12
  else if w = "thirteen".data then some 13
  else if w = "fourteen".data then some 14
  else if w = "fifteen".data then some 15
  else if w = "sixteen".data then some 16
  else if w = "seventeen".data then some 17
  else if w = "eighteen".data then some 18
  else if w = "nineteen".data then some 19
  else if w = "twenty".data then some 20
  else if w = "thirty".data then some 30
  else if w = "forty".data then some 40
  else if w = "fifty".data then some 50
  else if w = "sixty".data then some 60
  else if w = "seventy".data then some 70
  else if w = "eighty".data then some 80
  else if w = "ninety".data then some 90
  else if w = "hundred".data then some 100
  else if w = "thousand".data then some 1000
  else if w = "million".data then some 1000000
  else if w = "billion".data then some 1000000000
  else none

def allWordVals : List (List Char) → Option (List Nat)
  | [] => some []
  | w :: rest =>
    match w2nWordValue w with
    | none => none
    | some v => (allWordVals rest).map (v :: ·)

/-- Standard number-phrase combination: units and tens accumulate, `hundred`
multiplies the open group, `thousand`/`million`/`billion` close it. -/
def w2nFold : Nat → Nat → List Nat → Nat
  | total, g, [] => total + g
  | total, g, v :: rest =>
    if v = 100 then w2nFold total ((if g = 0 then 1 else g) * 100) rest
    else if v = 1000 || v = 1000000 || v = 1000000000 then
      w2nFold (total + (if g = 0 then 1 else g) * v) 0 rest
    else w2nFold total (g + v) rest

def splitWSAux : List Char → List Char → List (List Char)
  | cur, [] => if cur.isEmpty then [] else [cur.reverse]
  | cur, c :: cs =>
    if isPySpace c then
      (if cur.isEmpty then splitWSAux [] cs else cur.reverse :: splitWSAux [] cs)
    else splitWSAux (c :: cur) cs

def splitWS (l : List Char) : List (List Char) := splitWSAux [] l

/-- Modelled from the spec: `w2n.word_to_num` (the `word2number` dependency is
not part of this repository).  Hyphens become spaces and the input is
lower-cased; a non-empty all-digit string is that integer (the claims record
this digit-string acceptance); otherwise, per the spec, the phrase converts
exactly when it is an English number phrase — every whitespace-separated word
must be a number word — and fails ("no conversion") otherwise. -/
def w2nModel (text : List Char) : Option Nat :=
  if !(lowerList (text.map (fun c => if c = '-' then ' ' else c))).isEmpty &&
      (lowerList (text.map (fun c => if c = '-' then ' ' else c))).all isDigitCh then
    some (foldDigits 0 (lowerList (text.map (fun c => if c = '-' then ' ' else c))))
  else
    match splitWS (lowerList (text.map (fun c => if c = '-' then ' ' else c))) with
    | [] => none
    | ws =>
      match allWordVals ws with
      | none => none
      | some vs => some (w2nFold 0 0 vs)

/-- `word_to_number` (lines 45-49): convert, `None` on failure. -/
def word_to_number (text : List Char) : Option Dec :=
  (w2nModel text).map (fun n => ⟨n, 0⟩)

/-- The body of the word loop for one match (lines 124-142): failed
conversions are dropped, `currency` is fixed to `"INR"`, no plausibility
filter. -/
def mentionOfWord (td : List Char) (pos len : Nat) (g1 : List Char)
    (g2 : Option (List Char)) : Except PyErr (Option Mention) :=
  match word_to_number g1 with
  | none => .ok none
  | some num =>
    match pyParseAmountString num.toChars (orEmpty g2) with
    | .error e => .error e
    | .ok (base, mult, unit) =>
      .ok (some
        { text := String.mk ((td.drop pos).take len)
          start := pos
          endPos := pos + len
          currency := "INR"
          value := (base.mulNat mult).roundHalfUp
          unit_multiplier := unitMultStr unit mult
          raw_number := String.mk base.toChars
          suffix := suffixField (orEmpty g2) })

def wordLoop (td : List Char) :
    List (Nat × Nat × List Char × Option (List Char)) → Except PyErr (List Mention)
  | [] => .ok []
  | (pos, len, g1, g2) :: rest =>
    match mentionOfWord td pos len g1 g2 with
    | .error e => .error e
    | .ok none => wordLoop td rest
    | .ok (some m) =>
      match wordLoop td rest with
      | .error e => .error e
      | .ok l => .ok (m :: l)

-- ---------------------------------------------------------------------
-- The relevance gate and the orchestrator (lines 72, 77-144)
-- ---------------------------------------------------------------------

/-- The process-wide read-only constants the orchestrator consults.  The
compiled regex patterns are fixed in the functions above; the keyword
alternation of `transaction_keywords` (line 72) is the data the gate reads. -/
structure Globals where
  transactionKeywords : List (List Char)
deriving DecidableEq

def defaultGlobals : Globals :=
  ⟨["limit".data, "transaction".data, "amount".data, "transfer".data,
    "allow".data, "approve".data, "upto".data, "increase".data,
    "set limit".data, "requesting".data]⟩

/-- `re.search(transaction_keywords, text, re.IGNORECASE)` as a Bool
(line 81): some keyword occurs, word-boundary delimited, case-insensitively. -/
def containsKeyword (g : Globals) (cs : List Char) : Bool :=
  wordSearch g.transactionKeywords none (lowerList cs)

/-- `extract_amounts(text)` (lines 77-144): the relevance gate, then the
numeric loop, then the word loop, concatenated in order. -/
def extractCore (g : Globals) (text : String) : Except PyErr (List Mention) :=
  if containsKeyword g text.data then
    match numericLoop text.data (numScan text.data) with
    | .error e => .error e
    | .ok ln =>
      match wordLoop text.data (wordScan text.data) with
      | .error e => .error e
      | .ok lw => .ok (ln ++ lw)
  else .ok []

/-- `extract_amounts` with the process state made explicit: the call returns
its result and the (unchanged) globals. -/
def extractAmountsG (g : Globals) (text : String) :
    Except PyErr (List Mention) × Globals :=
  (extractCore g text, g)

def extractAmounts (text : String) : Except PyErr (List Mention) :=
  (extractAmountsG defaultGlobals text).1

-- ---------------------------------------------------------------------
-- Claim-side definitions (written from the claims' words, for comparison)
-- ---------------------------------------------------------------------

/-- The multiplier canonically associated with a `unit_multiplier` value,
as claim C3 lists it: "lakh" = 100000, "crore" = 10000000,
"thousand" = 1000, "million" = 1000000, "billion" = 1000000000, "1" = 1. -/
def claimMultFor (u : String) : Nat :=
  if u = "lakh" then 100000
  else if u = "crore" then 10000000
  else if u = "thousand" then 1000
  else if u = "million" then 1000000
  else if u = "billion" then 1000000000
  else 1

/-- A family table row: keyword alternatives tested by word-boundary search,
exact ("bare") alternatives, multiplier, canonical unit. -/
def lookupFamily :
    List (List (List Char) × List (List Char) × Nat × List Char) → List Char →
      Option (Nat × List Char)
  | [], _ => none
  | (alts, exacts, mult, u) :: rest, m =>
    if wordSearch alts none m || exacts.any (fun e => m = e) then some (mult, u)
    else lookupFamily rest m

/-- The trailing-letter fallback exactly as claim C5 states it. -/
def trailingFallback (m : List Char) : Nat × Option (List Char) :=
  if endsWithCh 'k' m then (1000, some "thousand".data)
  else if endsWithCh 'm' m then (1000000, some "million".data)
  else if endsWithCh 'l' m then (100000, some "lakh".data)
  else (1, none)

/-- The families exactly as claim C5 lists them (no plural forms). -/
def claimC5Families :
    List (List (List Char) × List (List Char) × Nat × List Char) :=
  [(["lakh".data, "lac".data, "lacs".data], ["l".data, "lk".data],
      100000, "lakh".data),
   (["crore".data, "cr".data, "cr.".data], [], 10000000, "crore".data),
   (["k".data, "thousand".data, "k.".data, "thou".data], [], 1000, "thousand".data),
   (["million".data, "m".data, "mn".data, "m.".data], [], 1000000, "million".data),
   (["billion".data, "bn".data, "b".data], [], 1000000000, "billion".data)]

/-- The Magnitude Resolver exactly as claim C5 describes it, applied to the
lowered and trimmed suffix. -/
def claimC5Resolver (m : List Char) : Nat × Option (List Char) :=
  match lookupFamily claimC5Families m with
  | some (mult, u) => (mult, some u)
  | none => trailingFallback m

/-- The families amended with the plural forms the implementation's keyword
patterns cover: `lakh?s` adds "lakhs"/"laks", `crore?s` adds
"crores"/"crors", and the million family lists "millions". -/
def claimC5AmendedFamilies :
    List (List (List Char) × List (List Char) × Nat × List Char) :=
  [(lakhAlts, ["l".data, "lk".data], 100000, "lakh".data),
   (croreAlts, [], 10000000, "crore".data),
   (thousandAlts, [], 1000, "thousand".data),
   (millionAlts, [], 1000000, "million".data),
   (billionAlts, [], 1000000000, "billion".data)]

/-- The amended Magnitude Resolver: claim C5's cascade with the plural
forms added to the families. -/
def claimC5AmendedResolver (m : List Char) : Nat × Option (List Char) :=
  match lookupFamily claimC5AmendedFamilies m with
  | some (mult, u) => (mult, some u)
  | none => trailingFallback m

-- ---------------------------------------------------------------------
-- Theorems
-- ---------------------------------------------------------------------

theorem foldDigits_nil (acc : Nat) : foldDigits acc [] = acc := rfl

theorem foldDigits_cons (acc : Nat) (c : Char) (cs : List Char) :
    foldDigits acc (c :: cs) = foldDigits (acc * 10 + chVal c) cs := rfl

theorem foldDigits_append (acc : Nat) (a b : List Char) :
    foldDigits acc (a ++ b) = foldDigits (foldDigits acc a) b := by
  induction a generalizing acc with
  | nil => rfl
  | cons c cs ih => simp [foldDigits_cons, ih]

theorem chVal_digitCh {d : Nat} (h : d < 10) : chVal (digitCh d) = d := by
  interval_cases d <;> decide

theorem isDigit_digitCh {d : Nat} (h : d < 10) : isDigitCh (digitCh d) = true := by
  interval_cases d <;> decide

theorem natDigitsAux_succ (fuel n : Nat) :
    natDigitsAux (fuel + 1) n =
      if n < 10 then [n] else natDigitsAux fuel (n / 10) ++ [n % 10] := rfl

/-- Reading back the digit characters of `n` yields `acc`-shifted `n`. -/
theorem foldDigits_natToChars_aux :
    ∀ fuel n acc, n < fuel →
      foldDigits acc ((natDigitsAux fuel n).map digitCh) =
        acc * 10 ^ (natDigitsAux fuel n).length + n := by
  intro fuel
  induction fuel with
  | zero => intro n acc h; omega
  | succ fuel ih =>
    intro n acc h
    by_cases h10 : n < 10
    · simp [natDigitsAux_succ, h10, foldDigits_cons, foldDigits_nil, chVal_digitCh h10]
    · have hdiv : n / 10 < fuel := by omega
      have hmod : n % 10 < 10 := Nat.mod_lt n (by omega)
      rw [natDigitsAux_succ, if_neg h10, List.map_append, foldDigits_append,
        ih (n / 10) acc hdiv]
      simp only [List.map_cons, List.map_nil, foldDigits_cons, foldDigits_nil,
        chVal_digitCh hmod, List.length_append, List.length_singleton, pow_succ,
        ← mul_assoc]
      generalize acc * 10 ^ (natDigitsAux fuel (n / 10)).length = A
      omega

theorem foldDigits_natToChars (n : Nat) : foldDigits 0 (natToChars n) = n := by
  simpa [natToChars, natDigits] using foldDigits_natToChars_aux (n + 1) n 0 (Nat.lt_succ_self n)

theorem natDigitsAux_all_digits :
    ∀ fuel n, ∀ d ∈ natDigitsAux fuel n, d < 10 := by
  intro fuel
  induction fuel with
  | zero => intro n d h; simp [natDigitsAux] at h
  | succ fuel ih =>
    intro n d h
    by_cases h10 : n < 10
    · rw [natDigitsAux_succ, if_pos h10] at h; simp at h; omega
    · rw [natDigitsAux_succ, if_neg h10] at h
      rcases List.mem_append.mp h with h | h
      · exact ih _ _ h
      · simp at h; omega

theorem natToChars_all_digits (n : Nat) : ∀ c ∈ natToChars n, isDigitCh c = true := by
  intro c hc
  simp only [natToChars, List.mem_map] at hc
  obtain ⟨d, hd, rfl⟩ := hc
  exact isDigit_digitCh (natDigitsAux_all_digits _ _ _ hd)

theorem natDigitsAux_ne_nil : ∀ fuel n, n < fuel → natDigitsAux fuel n ≠ [] := by
  intro fuel
  cases fuel with
  | zero => intro n h; omega
  | succ fuel =>
    intro n _
    rw [natDigitsAux_succ]
    by_cases h10 : n < 10
    · simp [h10]
    · simp [h10]

theorem natToChars_ne_nil (n : Nat) : natToChars n ≠ [] := by
  simp only [natToChars, natDigits, ne_eq, List.map_eq_nil_iff]
  exact natDigitsAux_ne_nil (n + 1) n (Nat.lt_succ_self n)

theorem natToChars_length_pos (n : Nat) : 0 < (natToChars n).length :=
  List.length_pos.mpr (natToChars_ne_nil n)

-- ---------------------------------------------------------------------
-- Roundtrip: `Decimal(str(d)) = d`
-- ---------------------------------------------------------------------

theorem takeWhile_append_stop (p : Char → Bool) :
    ∀ A B : List Char, (∀ x ∈ A, p x = true) →
      (∀ b bs, B = b :: bs → p b = false) →
      (A ++ B).takeWhile p = A := by
  intro A
  induction A with
  | nil =>
    intro B _ hB
    cases B with
    | nil => rfl
    | cons b bs => simp [List.takeWhile_cons, hB b bs rfl]
  | cons a as ih =>
    intro B hA hB
    have ha : p a = true := hA a (List.mem_cons_self a as)
    simp [List.takeWhile_cons, ha,
      ih B (fun x hx => hA x (List.mem_cons_of_mem a hx)) hB]

theorem splitDigits_spec (A B : List Char) (hA : ∀ x ∈ A, isDigitCh x = true)
    (hB : ∀ b bs, B = b :: bs → isDigitCh b = false) :
    splitDigits (A ++ B) = (A, B) := by
  unfold splitDigits
  rw [takeWhile_append_stop isDigitCh A B hA hB, List.drop_left]

theorem splitDigits_all (A : List Char) (hA : ∀ x ∈ A, isDigitCh x = true) :
    splitDigits A = (A, []) := by
  have := splitDigits_spec A [] hA (by intro b bs h; simp at h)
  simpa using this

theorem dropWhile_eq_self_of (p : Char → Bool) (l : List Char)
    (h : ∀ c ∈ l, p c = false) : l.dropWhile p = l := by
  cases l with
  | nil => rfl
  | cons a as => simp [List.dropWhile_cons, h a (List.mem_cons_self a as)]

theorem pyStrip_noop (l : List Char) (h : ∀ c ∈ l, isPySpace c = false) :
    pyStrip l = l := by
  unfold pyStrip dropTrailingWhile
  rw [dropWhile_eq_self_of _ l h,
    dropWhile_eq_self_of _ l.reverse (fun c hc => h c (List.mem_reverse.mp hc)),
    List.reverse_reverse]

theorem not_space_of_digit (c : Char) (h : isDigitCh c = true) :
    isPySpace c = false := by
  cases hsp : isPySpace c
  · rfl
  · exfalso
    simp only [isPySpace, Bool.or_eq_true, decide_eq_true_eq] at hsp
    rcases hsp with ((((h1 | h1) | h1) | h1) | h1) | h1 <;> subst h1 <;>
      exact absurd h (by decide)

theorem foldDigits_replicate_zero (k : Nat) :
    foldDigits 0 (List.replicate k '0') = 0 := by
  induction k with
  | zero => rfl
  | succ k ih => simpa [List.replicate_succ, foldDigits_cons] using ih

theorem foldDigits_append_replicate_zero (k : Nat) (l : List Char) :
    foldDigits 0 (List.replicate k '0' ++ l) = foldDigits 0 l := by
  rw [foldDigits_append, foldDigits_replicate_zero]

theorem toChars_eq_zero (co : Nat) : Dec.toChars ⟨co, 0⟩ = natToChars co := by
  simp [Dec.toChars]

theorem toChars_eq_lt (co s : Nat) (h0 : s ≠ 0) (hlt : s < (natToChars co).length) :
    Dec.toChars ⟨co, s⟩ =
      (natToChars co).take ((natToChars co).length - s) ++
        '.' :: (natToChars co).drop ((natToChars co).length - s) := by
  have h5 : s ≤ (natToChars co).length + 5 := by omega
  simp [Dec.toChars, h0, h5, hlt]

theorem toChars_eq_ge (co s : Nat) (h0 : s ≠ 0)
    (hge : (natToChars co).length ≤ s) (h5 : s ≤ (natToChars co).length + 5) :
    Dec.toChars ⟨co, s⟩ =
      '0' :: '.' :: (List.replicate (s - (natToChars co).length) '0' ++ natToChars co) := by
  have hnlt : ¬ s < (natToChars co).length := by omega
  simp [Dec.toChars, h0, h5, hnlt]

theorem toChars_eq_sci (co s : Nat) (h : (natToChars co).length + 5 < s) :
    Dec.toChars ⟨co, s⟩ =
      sciMantissa (natToChars co) ++ 'E' :: '-' :: natToChars (s + 1 - (natToChars co).length) := by
  have h0 : s ≠ 0 := by have := natToChars_length_pos co; omega
  have h5 : ¬ s ≤ (natToChars co).length + 5 := by omega
  simp [Dec.toChars, h0, h5]

theorem mem_sciMantissa (c : Char) (l : List Char) (h : c ∈ sciMantissa l) :
    c = '.' ∨ c ∈ l := by
  match l with
  | [] => simp [sciMantissa] at h
  | [a] =>
    simp [sciMantissa] at h
    simp [h]
  | a :: b :: rest =>
    simp only [sciMantissa, List.mem_cons] at h
    rcases h with h | h | h
    · right; simp [h]
    · left; exact h
    · right; simp [List.mem_cons]; tauto

theorem toChars_no_space (d : Dec) : ∀ c ∈ d.toChars, isPySpace c = false := by
  obtain ⟨co, s⟩ := d
  have hdig := natToChars_all_digits co
  have hdigX := natToChars_all_digits (s + 1 - (natToChars co).length)
  intro c hc
  by_cases hs0 : s = 0
  · subst hs0; rw [toChars_eq_zero] at hc
    exact not_space_of_digit c (hdig c hc)
  by_cases hlt : s < (natToChars co).length
  · rw [toChars_eq_lt co s hs0 hlt] at hc
    rcases List.mem_append.mp hc with h | h
    · exact not_space_of_digit c (hdig c (List.take_subset _ _ h))
    · rcases List.mem_cons.mp h with h | h
      · subst h; decide
      · exact not_space_of_digit c (hdig c (List.drop_subset _ _ h))
  by_cases h5 : s ≤ (natToChars co).length + 5
  · rw [toChars_eq_ge co s hs0 (le_of_not_lt hlt) h5] at hc
    rcases List.mem_cons.mp hc with h | h
    · subst h; decide
    rcases List.mem_cons.mp h with h | h
    · subst h; decide
    rcases List.mem_append.mp h with h | h
    · rw [List.eq_of_mem_replicate h]; decide
    · exact not_space_of_digit c (hdig c h)
  · rw [toChars_eq_sci co s (by omega)] at hc
    rcases List.mem_append.mp hc with h | h
    · rcases mem_sciMantissa c _ h with h | h
      · subst h; decide
      · exact not_space_of_digit c (hdig c h)
    rcases List.mem_cons.mp h with h | h
    · subst h; decide
    rcases List.mem_cons.mp h with h | h
    · subst h; decide
    · exact not_space_of_digit c (hdigX c h)

theorem pyDecimalAfterFrac_nil (ip fp : List Char) (hne : ip ++ fp ≠ []) :
    pyDecimalAfterFrac ip fp [] = some ⟨foldDigits 0 (ip ++ fp), fp.length⟩ := by
  simp [pyDecimalAfterFrac, hne]

theorem pyDecimalAfterFrac_E (ip fp r4 : List Char) (hne : ip ++ fp ≠ []) :
    pyDecimalAfterFrac ip fp ('E' :: r4) =
      pyDecimalExp (foldDigits 0 (ip ++ fp)) fp.length r4 := by
  simp [pyDecimalAfterFrac, hne]

theorem parseExpPart_neg (X : List Char) (hX : ∀ x ∈ X, isDigitCh x = true)
    (hXne : X ≠ []) :
    parseExpPart ('-' :: X) = some (-(foldDigits 0 X : Int)) := by
  show (fun p => if p.1 = ([] : List Char) ∨ p.2 ≠ ([] : List Char) then none
        else some (-(foldDigits 0 p.1 : Int))) (splitDigits X) = _
  rw [splitDigits_all X hX]
  simp [hXne]

theorem pyDecimalExp_neg (co fracLen : Nat) (X : List Char)
    (hX : ∀ x ∈ X, isDigitCh x = true) (hXne : X ≠ []) :
    pyDecimalExp co fracLen ('-' :: X) = some ⟨co, fracLen + foldDigits 0 X⟩ := by
  unfold pyDecimalExp
  rw [parseExpPart_neg X hX hXne]
  have hle : (-(foldDigits 0 X : Int)) ≤ (fracLen : Int) := by omega
  have ht : ((fracLen : Int) - -(foldDigits 0 X : Int)).toNat = fracLen + foldDigits 0 X := by
    omega
  simp [hle, ht]
  omega

theorem pyDecimal_digits (A : List Char) (hA : ∀ x ∈ A, isDigitCh x = true)
    (hne : A ≠ []) :
    pyDecimalAfterInt (splitDigits A).1 (splitDigits A).2 =
      some ⟨foldDigits 0 A, 0⟩ := by
  rw [splitDigits_all A hA]
  have h1 : pyDecimalAfterInt A [] = pyDecimalAfterFrac A [] [] := rfl
  show pyDecimalAfterInt A [] = _
  rw [h1, pyDecimalAfterFrac_nil A [] (by simpa using hne)]
  simp

theorem pyDecimal_dot (A B : List Char) (hA : ∀ x ∈ A, isDigitCh x = true)
    (hB : ∀ x ∈ B, isDigitCh x = true) (hne : A ++ B ≠ []) :
    pyDecimalAfterInt (splitDigits (A ++ '.' :: B)).1 (splitDigits (A ++ '.' :: B)).2 =
      some ⟨foldDigits 0 (A ++ B), B.length⟩ := by
  rw [splitDigits_spec A ('.' :: B) hA
    (by intro b bs h; injection h with h1 _; subst h1; decide)]
  show pyDecimalAfterInt A ('.' :: B) = _
  have h1 : pyDecimalAfterInt A ('.' :: B) =
      pyDecimalAfterFrac A (splitDigits B).1 (splitDigits B).2 := rfl
  rw [h1, splitDigits_all B hB]
  exact pyDecimalAfterFrac_nil A B hne

theorem pyDecimal_sci_single (A X : List Char)
    (hA : ∀ x ∈ A, isDigitCh x = true) (hAne : A ≠ [])
    (hX : ∀ x ∈ X, isDigitCh x = true) (hXne : X ≠ []) :
    pyDecimalAfterInt (splitDigits (A ++ 'E' :: '-' :: X)).1
        (splitDigits (A ++ 'E' :: '-' :: X)).2 =
      some ⟨foldDigits 0 A, foldDigits 0 X⟩ := by
  rw [splitDigits_spec A ('E' :: '-' :: X) hA
    (by intro b bs h; injection h with h1 _; subst h1; decide)]
  show pyDecimalAfterInt A ('E' :: '-' :: X) = _
  have h1 : pyDecimalAfterInt A ('E' :: '-' :: X) =
      pyDecimalAfterFrac A [] ('E' :: '-' :: X) := rfl
  rw [h1, pyDecimalAfterFrac_E A [] ('-' :: X) (by simpa using hAne),
    pyDecimalExp_neg _ _ X hX hXne]
  simp

theorem pyDecimal_dot_sci (A B X : List Char)
    (hA : ∀ x ∈ A, isDigitCh x = true) (hB : ∀ x ∈ B, isDigitCh x = true)
    (hX : ∀ x ∈ X, isDigitCh x = true) (hAne : A ≠ []) (hXne : X ≠ []) :
    pyDecimalAfterInt (splitDigits (A ++ '.' :: (B ++ 'E' :: '-' :: X))).1
        (splitDigits (A ++ '.' :: (B ++ 'E' :: '-' :: X))).2 =
      some ⟨foldDigits 0 (A ++ B), B.length + foldDigits 0 X⟩ := by
  rw [splitDigits_spec A ('.' :: (B ++ 'E' :: '-' :: X)) hA
    (by intro b bs h; injection h with h1 _; subst h1; decide)]
  show pyDecimalAfterInt A ('.' :: (B ++ 'E' :: '-' :: X)) = _
  have h1 : pyDecimalAfterInt A ('.' :: (B ++ 'E' :: '-' :: X)) =
      pyDecimalAfterFrac A (splitDigits (B ++ 'E' :: '-' :: X)).1
        (splitDigits (B ++ 'E' :: '-' :: X)).2 := rfl
  rw [h1, splitDigits_spec B ('E' :: '-' :: X) hB
    (by intro b bs h; injection h with h1 _; subst h1; decide)]
  have hne : A ++ B ≠ [] := fun hcontra => hAne (by
    cases A with
    | nil => rfl
    | cons a as => simp at hcontra)
  rw [pyDecimalAfterFrac_E A B ('-' :: X) hne, pyDecimalExp_neg _ _ X hX hXne]

/-- `Decimal(str(d)) = d`: printing one of our `Decimal` values and parsing
the result with the `Decimal` constructor model restores the value. -/
theorem pyDecimalOfChars_toChars (d : Dec) : pyDecimalOfChars d.toChars = some d := by
  obtain ⟨co, s⟩ := d
  have hdig := natToChars_all_digits co
  have hne := natToChars_ne_nil co
  have hL := natToChars_length_pos co
  have hfold := foldDigits_natToChars co
  rw [pyDecimalOfChars, pyStrip_noop _ (toChars_no_space ⟨co, s⟩)]
  by_cases hs0 : s = 0
  · subst hs0
    rw [toChars_eq_zero, pyDecimal_digits (natToChars co) hdig hne, hfold]
  by_cases hlt : s < (natToChars co).length
  · rw [toChars_eq_lt co s hs0 hlt]
    rw [pyDecimal_dot _ _
      (fun x hx => hdig x (List.take_subset _ _ hx))
      (fun x hx => hdig x (List.drop_subset _ _ hx))
      (by rw [List.take_append_drop]; exact hne)]
    rw [List.take_append_drop, hfold]
    have hlen : ((natToChars co).drop ((natToChars co).length - s)).length = s := by
      rw [List.length_drop]; omega
    rw [hlen]
  by_cases h5 : s ≤ (natToChars co).length + 5
  · rw [toChars_eq_ge co s hs0 (le_of_not_lt hlt) h5]
    have hshape : ('0' :: '.' ::
        (List.replicate (s - (natToChars co).length) '0' ++ natToChars co) : List Char) =
        ['0'] ++ '.' :: (List.replicate (s - (natToChars co).length) '0' ++ natToChars co) := rfl
    rw [hshape]
    rw [pyDecimal_dot ['0'] _
      (by intro x hx; simp at hx; subst hx; decide)
      (by
        intro x hx
        rcases List.mem_append.mp hx with h | h
        · rw [List.eq_of_mem_replicate h]; decide
        · exact hdig x h)
      (by simp)]
    have hfold2 : foldDigits 0
        (['0'] ++ (List.replicate (s - (natToChars co).length) '0' ++ natToChars co)) = co := by
      have : (['0'] ++ (List.replicate (s - (natToChars co).length) '0' ++ natToChars co)
            : List Char) =
          List.replicate (s - (natToChars co).length + 1) '0' ++ natToChars co := by
        simp [List.replicate_succ]
      rw [this, foldDigits_append_replicate_zero, hfold]
    rw [hfold2]
    have hlen : (List.replicate (s - (natToChars co).length) '0' ++ natToChars co).length = s := by
      simp [List.length_append, List.length_replicate]; omega
    rw [hlen]
  · rw [toChars_eq_sci co s (by omega)]
    have hdigX := natToChars_all_digits (s + 1 - (natToChars co).length)
    have hneX := natToChars_ne_nil (s + 1 - (natToChars co).length)
    have hfoldX := foldDigits_natToChars (s + 1 - (natToChars co).length)
    rcases hds : natToChars co with _ | ⟨c, rest⟩
    · exact absurd hds hne
    rcases rest with _ | ⟨c2, rest2⟩
    · -- single mantissa digit
      have hm : sciMantissa [c] = [c] := rfl
      rw [hds] at hdig hfold
      have hL1 : (natToChars co).length = 1 := by rw [hds]; simp
      rw [hL1] at hdigX hneX hfoldX
      rw [show ([c] : List Char).length = 1 from rfl, hm]
      rw [pyDecimal_sci_single [c] _ hdig (by simp) hdigX hneX]
      rw [hfoldX]
      have : foldDigits 0 [c] = co := hfold
      rw [this]
      have : s + 1 - 1 = s := by omega
      rw [this]
    · -- mantissa with a dot
      have hm : sciMantissa (c :: c2 :: rest2) = c :: '.' :: (c2 :: rest2) := rfl
      rw [hds] at hdig hfold
      have hL2 : (natToChars co).length = rest2.length + 2 := by rw [hds]; simp
      rw [hL2] at hdigX hneX hfoldX
      rw [show ((c :: c2 :: rest2 : List Char)).length = rest2.length + 2 from by simp, hm]
      have hshape : ((c :: '.' :: (c2 :: rest2) : List Char) ++
          'E' :: '-' :: natToChars (s + 1 - (rest2.length + 2))) =
          [c] ++ '.' :: ((c2 :: rest2) ++
            'E' :: '-' :: natToChars (s + 1 - (rest2.length + 2))) := by simp
      rw [hshape]
      rw [pyDecimal_dot_sci [c] (c2 :: rest2) _
        (by intro y hy; rw [List.mem_singleton] at hy; rw [hy]
            exact hdig c (List.mem_cons_self c _))
        (fun x hx => hdig x (List.mem_cons_of_mem c hx))
        hdigX (by simp) hneX]
      rw [hfoldX]
      have hfold3 : foldDigits 0 ([c] ++ (c2 :: rest2)) = co := hfold
      rw [hfold3]
      have hlen2 : (c2 :: rest2).length = rest2.length + 1 := by simp
      rw [hlen2]
      have : rest2.length + 1 + (s + 1 - (rest2.length + 2)) = s := by
        have : rest2.length + 2 ≤ s := by omega
        omega
      rw [this]

theorem resolveMult_cases (m : List Char) :
    resolveMult m = (100000, some "lakh".data) ∨
    resolveMult m = (10000000, some "crore".data) ∨
    resolveMult m = (1000, some "thousand".data) ∨
    resolveMult m = (1000000, some "million".data) ∨
    resolveMult m = (1000000000, some "billion".data) ∨
    resolveMult m = (1, none) := by
  unfold resolveMult
  split_ifs <;> simp

theorem multOfSuffix_cases (mulStr : List Char) :
    multOfSuffix mulStr = (100000, some "lakh".data) ∨
    multOfSuffix mulStr = (10000000, some "crore".data) ∨
    multOfSuffix mulStr = (1000, some "thousand".data) ∨
    multOfSuffix mulStr = (1000000, some "million".data) ∨
    multOfSuffix mulStr = (1000000000, some "billion".data) ∨
    multOfSuffix mulStr = (1, none) := by
  unfold multOfSuffix
  split_ifs
  · simp
  · exact resolveMult_cases _

theorem pyParseAmountString_shape (numStr mulStr : List Char) (b : Dec)
    (mult : Nat) (unit : Option (List Char))
    (h : pyParseAmountString numStr mulStr = .ok (b, mult, unit)) :
    (mult, unit) = multOfSuffix mulStr := by
  unfold pyParseAmountString at h
  rcases h1 : pyDecimalOfChars (numCleanOf numStr) with _ | base
  · rw [h1] at h
    rcases h2 : pyDecimalOfChars (pyFallbackChars (numCleanOf numStr)) with _ | base2
    · rw [h2] at h; simp at h
    · rw [h2] at h
      simp at h
      simp [h]
  · rw [h1] at h
    simp at h
    simp [h]

-- ---------------------------------------------------------------------
-- Structural lemmas about the scanners and loops
-- ---------------------------------------------------------------------

theorem matchNumberTok_ne_nil (cs num rest : List Char)
    (h : matchNumberTok cs = some (num, rest)) : num ≠ [] := by
  unfold matchNumberTok at h
  cases cs with
  | nil => simp at h
  | cons c cs' =>
    dsimp only at h
    by_cases hd : isDigitCh c
    · rw [if_pos hd] at h
      by_cases he : (dropTrailingNonDigits
          (cs'.takeWhile (fun x => isDigitCh x || x == ',' || x == '.'))).isEmpty
      · rw [if_pos he] at h
        simp at h
        simp [← h.1]
      · rw [if_neg he] at h
        simp at h
        simp [← h.1]
    · rw [if_neg hd] at h
      simp at h

theorem contA_num_ne_nil (cs num r : List Char) (suf : Option (List Char))
    (h : contA cs = some (num, r, suf)) : num ≠ [] := by
  unfold contA at h
  rcases hs : spacesNumber cs with _ | ⟨num0, rest0⟩
  · rw [hs] at h; simp at h
  · rw [hs] at h
    dsimp only at h
    have hn : num0 ≠ [] := matchNumberTok_ne_nil _ _ _ hs
    rcases hm : matchSuffixTok (rest0.dropWhile isPySpace) with _ | ⟨suf0, rest3⟩
    · rw [hm] at h
      simp at h
      rw [← h.1]
      exact hn
    · rw [hm] at h
      simp at h
      rw [← h.1]
      exact hn

theorem branchA_aux_num_ne_nil :
    ∀ (cands : List (List Char)) (cs : List Char) (mark : Option (List Char))
      (num r : List Char) (suf : Option (List Char)),
      branchA_aux cands cs = some (mark, num, r, suf) → num ≠ [] := by
  intro cands
  induction cands with
  | nil =>
    intro cs mark num r suf h
    unfold branchA_aux at h
    rcases hc : contA cs with _ | ⟨num0, r0, suf0⟩
    · rw [hc] at h; simp at h
    · rw [hc] at h
      simp at h
      rw [← h.2.1]
      exact contA_num_ne_nil cs num0 r0 suf0 hc
  | cons cand rest ih =>
    intro cs mark num r suf h
    unfold branchA_aux at h
    rcases hp : ciPrefix cand cs with _ | ⟨mk, cs1⟩
    · rw [hp] at h
      dsimp only at h
      exact ih cs mark num r suf h
    · rw [hp] at h
      dsimp only at h
      rcases hc : contA cs1 with _ | ⟨num0, r0, suf0⟩
      · rw [hc] at h
        exact ih cs mark num r suf h
      · rw [hc] at h
        simp at h
        rw [← h.2.1]
        exact contA_num_ne_nil cs1 num0 r0 suf0 hc

theorem contA_isSome_of_contB (cs : List Char) (h : (contB cs).isSome) :
    (contA cs).isSome := by
  unfold contB at h
  unfold contA
  rcases hs : spacesNumber cs with _ | ⟨num, rest⟩
  · rw [hs] at h; simp at h
  · rcases hm : matchSuffixTok (rest.dropWhile isPySpace) with _ | ⟨suf, rest3⟩ <;>
      simp [hm]

theorem branchA_aux_isSome_of_branchB_aux :
    ∀ (cands : List (List Char)) (cs : List Char),
      (branchB_aux cands cs).isSome → (branchA_aux cands cs).isSome := by
  intro cands
  induction cands with
  | nil => intro cs h; unfold branchB_aux at h; simp at h
  | cons cand rest ih =>
    intro cs h
    unfold branchB_aux at h
    unfold branchA_aux
    rcases hp : ciPrefix cand cs with _ | ⟨mark, cs1⟩
    · rw [hp] at h
      dsimp only at h ⊢
      exact ih cs h
    · rw [hp] at h
      dsimp only at h ⊢
      rcases hc : contB cs1 with _ | ⟨num, r⟩
      · rw [hc] at h
        dsimp only at h
        rcases hcc : contA cs1 with _ | x
        · exact ih cs h
        · obtain ⟨num2, r2, suf2⟩ := x
          simp
      · have hsome : (contA cs1).isSome := contA_isSome_of_contB cs1 (by rw [hc]; simp)
        rcases hcc : contA cs1 with _ | x
        · rw [hcc] at hsome; simp at hsome
        · obtain ⟨num2, r2, suf2⟩ := x
          simp

theorem numericLoop_nil (td : List Char) : numericLoop td [] = .ok [] := rfl

theorem numericLoop_cons (td : List Char) (pos len : Nat) (g : NumGroups)
    (rest : List (Nat × Nat × NumGroups)) :
    numericLoop td ((pos, len, g) :: rest) =
      match mentionOfNumeric td pos len g with
      | .error e => .error e
      | .ok none => numericLoop td rest
      | .ok (some m) =>
        match numericLoop td rest with
        | .error e => .error e
        | .ok l => .ok (m :: l) := rfl

theorem numericLoop_mem (td : List Char) :
    ∀ (ms : List (Nat × Nat × NumGroups)) (l : List Mention) (m : Mention),
      numericLoop td ms = .ok l → m ∈ l →
      ∃ pos len g, mentionOfNumeric td pos len g = .ok (some m) := by
  intro ms
  induction ms with
  | nil =>
    intro l m h hm
    rw [numericLoop_nil] at h
    simp at h
    subst h
    simp at hm
  | cons hd rest ih =>
    obtain ⟨pos, len, g⟩ := hd
    intro l m h hm
    rw [numericLoop_cons] at h
    rcases hme : mentionOfNumeric td pos len g with e | o
    · rw [hme] at h; simp at h
    · rw [hme] at h
      cases o with
      | none => exact ih l m h hm
      | some m0 =>
        rcases hrest : numericLoop td rest with e | l'
        · rw [hrest] at h; simp at h
        · rw [hrest] at h
          simp at h
          subst h
          rcases List.mem_cons.mp hm with h1 | hm'
          · subst h1; exact ⟨pos, len, g, hme⟩
          · exact ih l' m hrest hm'

theorem wordLoop_nil (td : List Char) : wordLoop td [] = .ok [] := rfl

theorem wordLoop_cons (td : List Char) (pos len : Nat) (g1 : List Char)
    (g2 : Option (List Char)) (rest : List (Nat × Nat × List Char × Option (List Char))) :
    wordLoop td ((pos, len, g1, g2) :: rest) =
      match mentionOfWord td pos len g1 g2 with
      | .error e => .error e
      | .ok none => wordLoop td rest
      | .ok (some m) =>
        match wordLoop td rest with
        | .error e => .error e
        | .ok l => .ok (m :: l) := rfl

theorem wordLoop_mem (td : List Char) :
    ∀ (ms : List (Nat × Nat × List Char × Option (List Char))) (l : List Mention) (m : Mention),
      wordLoop td ms = .ok l → m ∈ l →
      ∃ pos len g1 g2, mentionOfWord td pos len g1 g2 = .ok (some m) := by
  intro ms
  induction ms with
  | nil =>
    intro l m h hm
    rw [wordLoop_nil] at h
    simp at h
    subst h
    simp at hm
  | cons hd rest ih =>
    obtain ⟨pos, len, g1, g2⟩ := hd
    intro l m h hm
    rw [wordLoop_cons] at h
    rcases hme : mentionOfWord td pos len g1 g2 with e | o
    · rw [hme] at h; simp at h
    · rw [hme] at h
      cases o with
      | none => exact ih l m h hm
      | some m0 =>
        rcases hrest : wordLoop td rest with e | l'
        · rw [hrest] at h; simp at h
        · rw [hrest] at h
          simp at h
          subst h
          rcases List.mem_cons.mp hm with h1 | hm'
          · subst h1; exact ⟨pos, len, g1, g2, hme⟩
          · exact ih l' m hrest hm'

theorem mentionOfNumeric_spec (td : List Char) (pos len : Nat) (g : NumGroups)
    (m : Mention) (h : mentionOfNumeric td pos len g = .ok (some m)) :
    ∃ b mult unit,
      pyParseAmountString (groupsExtract g).1 (groupsExtract g).2.1 = .ok (b, mult, unit) ∧
      m.value = (b.mulNat mult).roundHalfUp ∧
      m.raw_number = String.mk b.toChars ∧
      m.unit_multiplier = unitMultStr unit mult ∧
      b.gtNat 100000000 = false := by
  unfold mentionOfNumeric at h
  rcases hp : pyParseAmountString (groupsExtract g).1 (groupsExtract g).2.1 with e | ⟨b, mult, unit⟩
  · rw [hp] at h; simp at h
  · rw [hp] at h
    dsimp only at h
    by_cases hgt : b.gtNat 100000000
    · rw [if_pos hgt] at h; simp at h
    · rw [if_neg hgt] at h
      simp only [Except.ok.injEq, Option.some.injEq] at h
      refine ⟨b, mult, unit, rfl, ?_, ?_, ?_, by simpa using hgt⟩ <;> rw [← h]

theorem mentionOfWord_spec (td : List Char) (pos len : Nat) (g1 : List Char)
    (g2 : Option (List Char)) (m : Mention)
    (h : mentionOfWord td pos len g1 g2 = .ok (some m)) :
    ∃ num b mult unit,
      word_to_number g1 = some num ∧
      pyParseAmountString num.toChars (orEmpty g2) = .ok (b, mult, unit) ∧
      m.value = (b.mulNat mult).roundHalfUp ∧
      m.raw_number = String.mk b.toChars ∧
      m.unit_multiplier = unitMultStr unit mult := by
  unfold mentionOfWord at h
  rcases hw : word_to_number g1 with _ | num
  · rw [hw] at h; simp at h
  · rw [hw] at h
    dsimp only at h
    rcases hp : pyParseAmountString num.toChars (orEmpty g2) with e | ⟨b, mult, unit⟩
    · rw [hp] at h; simp at h
    · rw [hp] at h
      simp only [Except.ok.injEq, Option.some.injEq] at h
      refine ⟨num, b, mult, unit, rfl, hp, ?_, ?_, ?_⟩ <;> rw [← h]

/-- Every mention of a successful `extract_amounts` run comes from one of
the two loop bodies. -/
theorem extract_mem (t : String) (l : List Mention) (m : Mention)
    (h : extractAmounts t = .ok l) (hm : m ∈ l) :
    (∃ pos len g, mentionOfNumeric t.data pos len g = .ok (some m)) ∨
    (∃ pos len g1 g2, mentionOfWord t.data pos len g1 g2 = .ok (some m)) := by
  unfold extractAmounts extractAmountsG extractCore at h
  dsimp only at h
  by_cases hg : containsKeyword defaultGlobals t.data
  · rw [if_pos hg] at h
    rcases hn : numericLoop t.data (numScan t.data) with e | ln
    · rw [hn] at h; simp at h
    · rw [hn] at h
      dsimp only at h
      rcases hw : wordLoop t.data (wordScan t.data) with e | lw
      · rw [hw] at h; simp at h
      · rw [hw] at h
        simp only [Except.ok.injEq] at h
        subst h
        rcases List.mem_append.mp hm with hmn | hmw
        · exact Or.inl (numericLoop_mem t.data _ ln m hn hmn)
        · exact Or.inr (wordLoop_mem t.data _ lw m hw hmw)
  · rw [if_neg hg] at h
    simp only [Except.ok.injEq] at h
    subst h
    simp at hm

theorem resolveMult_eq_amended (m : List Char) :
    resolveMult m = claimC5AmendedResolver m := by
  unfold resolveMult claimC5AmendedResolver claimC5AmendedFamilies lookupFamily
    trailingFallback
  simp only [List.any_cons, List.any_nil, Bool.or_false]
  split_ifs <;> simp_all [lookupFamily]

theorem claimMultFor_unitMultStr (mulStr : List Char) (mult : Nat)
    (unit : Option (List Char)) (h : (mult, unit) = multOfSuffix mulStr) :
    claimMultFor (unitMultStr unit mult) = mult := by
  rcases multOfSuffix_cases mulStr with hc | hc | hc | hc | hc | hc <;>
    (rw [hc] at h; injection h with h1 h2; subst h1; subst h2; rfl)

-- ---------------------------------------------------------------------
-- The claims
-- ---------------------------------------------------------------------

/-- C1: the claim says `extract_amounts` never raises and in particular that
`parse_amount_string` tolerates multi-dot literals such as "1.2.3".  The code
disagrees: on "increase 1.2.3" the numeric scanner captures "1.2.3", the
first `Decimal` parse fails, the fallback keeps both dots, and the second
`Decimal` parse raises `decimal.InvalidOperation` uncaught, so the claim
marks a code bug (the fallback's own comment says it is there to recover). -/
theorem extract_raises_on_multidot :
    extractAmounts "increase 1.2.3" = Except.error PyErr.invalidOperation := rfl

/-- C2: if the text contains none of the transaction keywords
(case-insensitively, as whole words), `extract_amounts` returns the empty
sequence. -/
theorem relevance_gate_empty :
    ∀ t : String, containsKeyword defaultGlobals t.data = false →
      extractAmounts t = Except.ok [] := by
  intro t h
  unfold extractAmounts extractAmountsG extractCore
  simp [h]

/-- Witness for C2 at the claim's own example. -/
theorem relevance_gate_empty_witness :
    containsKeyword defaultGlobals "my account number is 234567890".data = false ∧
    extractAmounts "my account number is 234567890" = Except.ok [] :=
  ⟨rfl, relevance_gate_empty "my account number is 234567890" rfl⟩

/-- C3: every mention of a successful `extract_amounts` run satisfies the
re-derivation invariant: parsing `raw_number` as an exact decimal and scaling
by the multiplier canonically associated with `unit_multiplier` reproduces
`value` under half-up rounding. -/
theorem value_rederivation_invariant :
    ∀ (t : String) (l : List Mention) (m : Mention),
      extractAmounts t = Except.ok l → m ∈ l →
      ∃ b : Dec, pyDecimalOfChars m.raw_number.data = some b ∧
        m.value = (b.mulNat (claimMultFor m.unit_multiplier)).roundHalfUp := by
  intro t l m h hm
  rcases extract_mem t l m h hm with ⟨pos, len, g, hme⟩ | ⟨pos, len, g1, g2, hmw⟩
  · obtain ⟨b, mult, unit, hp, hv, hr, hu, _⟩ := mentionOfNumeric_spec _ _ _ _ _ hme
    refine ⟨b, ?_, ?_⟩
    · rw [hr]
      exact pyDecimalOfChars_toChars b
    · rw [hu, claimMultFor_unitMultStr _ mult unit (pyParseAmountString_shape _ _ _ _ _ hp), hv]
  · obtain ⟨num, b, mult, unit, hw, hp, hv, hr, hu⟩ := mentionOfWord_spec _ _ _ _ _ _ hmw
    refine ⟨b, ?_, ?_⟩
    · rw [hr]
      exact pyDecimalOfChars_toChars b
    · rw [hu, claimMultFor_unitMultStr _ mult unit (pyParseAmountString_shape _ _ _ _ _ hp), hv]

/-- Witness for C3 on a concrete run. -/
theorem value_rederivation_invariant_witness :
    extractAmounts "increase limit to 5" =
      Except.ok [⟨" 5", 17, 19, "unknown", 5, "1", "5", none⟩] ∧
    ∃ b : Dec, pyDecimalOfChars ("5" : String).data = some b ∧
      (5 : Nat) = (b.mulNat (claimMultFor "1")).roundHalfUp :=
  ⟨rfl, value_rederivation_invariant "increase limit to 5" _
    ⟨" 5", 17, 19, "unknown", 5, "1", "5", none⟩ rfl (List.mem_singleton.mpr rfl)⟩

/-- C4: every numeric-scanner candidate whose unscaled base exceeds
100000000 is dropped (no mention emitted); every numeric-loop mention has
base at most 100000000; and no such ceiling applies to the worded scanner —
on "increase: 2000000000" the numeric candidate is dropped but the worded
scanner emits the mention with value 2000000000 > 100000000. -/
theorem plausibility_filter :
    (∀ (td : List Char) (pos len : Nat) (g : NumGroups) (b : Dec) (mult : Nat)
        (unit : Option (List Char)),
        pyParseAmountString (groupsExtract g).1 (groupsExtract g).2.1 =
          .ok (b, mult, unit) →
        b.gtNat 100000000 = true →
        mentionOfNumeric td pos len g = .ok none) ∧
    (∀ (td : List Char) (ms : List (Nat × Nat × NumGroups)) (l : List Mention)
        (m : Mention),
        numericLoop td ms = .ok l → m ∈ l →
        ∃ b : Dec, pyDecimalOfChars m.raw_number.data = some b ∧
          b.leNat 100000000 = true) ∧
    extractAmounts "increase: 2000000000" =
      Except.ok [⟨"2000000000", 10, 20, "INR", 2000000000, "1", "2000000000", none⟩] ∧
    Dec.gtNat ⟨2000000000, 0⟩ 100000000 = true := by
  refine ⟨?_, ?_, rfl, rfl⟩
  · intro td pos len g b mult unit hp hgt
    unfold mentionOfNumeric
    rw [hp]
    dsimp only
    simp [hgt]
  · intro td ms l m h hm
    obtain ⟨pos, len, g, hme⟩ := numericLoop_mem td ms l m h hm
    obtain ⟨b, mult, unit, hp, hv, hr, hu, hgt⟩ := mentionOfNumeric_spec _ _ _ _ _ hme
    refine ⟨b, by rw [hr]; exact pyDecimalOfChars_toChars b, ?_⟩
    unfold Dec.gtNat at hgt
    unfold Dec.leNat
    simp at hgt ⊢
    omega

/-- Witness for C4's two universal parts at concrete inputs. -/
theorem plausibility_filter_witness :
    mentionOfNumeric [] 0 10 ⟨some "4024567890".data, none, none, none, none⟩ =
      .ok none ∧
    (∃ b : Dec, pyDecimalOfChars ("5" : String).data = some b ∧
      b.leNat 100000000 = true) :=
  ⟨plausibility_filter.1 [] 0 10 ⟨some "4024567890".data, none, none, none, none⟩
      ⟨4024567890, 0⟩ 1 none rfl rfl,
   plausibility_filter.2.1 "increase limit to 5".data
      (numScan "increase limit to 5".data)
      [⟨" 5", 17, 19, "unknown", 5, "1", "5", none⟩]
      ⟨" 5", 17, 19, "unknown", 5, "1", "5", none⟩ rfl (List.mem_singleton.mpr rfl)⟩

/-- Counterexample to C5 as stated: the suffix "lakhs" is resolved by the
implementation to the lakh family (its pattern `lakh?s` covers the plural),
while the claim's family lists contain no plural, so its trailing-letter
fallback would yield multiplier 1 and no unit. -/
theorem magnitude_resolver_plural_counterexample :
    multOfSuffix "lakhs".data = (100000, some "lakh".data) ∧
    claimC5Resolver "lakhs".data = (1, none) ∧
    ((100000, some "lakh".data) : Nat × Option (List Char)) ≠ (1, none) :=
  ⟨rfl, rfl, by decide⟩

/-- C5 amended: the Magnitude Resolver behaves exactly as the claim's
cascade (priority order, bare "l"/"lk", trailing-letter fallback, empty
suffix) once the families are amended with the plural forms the
implementation's keyword patterns cover ("lakhs"/"laks", "crores"/"crors",
"millions"). -/
theorem magnitude_resolver_amended :
    ∀ mulStr : List Char,
      multOfSuffix mulStr =
        if mulStr.isEmpty then (1, none)
        else claimC5AmendedResolver (pyStrip (lowerList mulStr)) := by
  intro mulStr
  unfold multOfSuffix
  by_cases he : mulStr.isEmpty <;> simp [he, resolveMult_eq_amended]

/-- Counterexample to C6 as stated: "Need ₹2.5 crore ASAP" contains no
transaction keyword, so `extract_amounts` returns the empty sequence, not
one mention. -/
theorem crore_example_counterexample :
    ¬ ∃ m : Mention, extractAmounts "Need ₹2.5 crore ASAP" = Except.ok [m] ∧
      m.raw_number = "2.5" ∧ m.value = 25000000 ∧ m.currency = "INR" := by
  rintro ⟨m, hm, -⟩
  rw [show extractAmounts "Need ₹2.5 crore ASAP" = Except.ok [] from rfl] at hm
  simp at hm

/-- C6 amended: the relevance gate finds no transaction keyword in
"Need ₹2.5 crore ASAP", so `extract_amounts` short-circuits to the empty
sequence. -/
theorem crore_example_amended :
    containsKeyword defaultGlobals "Need ₹2.5 crore ASAP".data = false ∧
    extractAmounts "Need ₹2.5 crore ASAP" = Except.ok [] :=
  ⟨rfl, rfl⟩

/-- Counterexample to C7 as stated: with the pluralized suffix "thousands"
the scanner matches, but the resolver's thousand family
`\b(k|thousand|k\.|thou)\b` does not match "thousands", so the mention keeps
multiplier 1 and unit "1" — value 5, not the family-scaled 5000. -/
theorem plural_suffix_counterexample :
    extractAmounts "increase limit to 5 thousands" =
      Except.ok [⟨" 5 thousands", 17, 29, "unknown", 5, "1", "5", some "thousands"⟩] ∧
    (Dec.mulNat ⟨5, 0⟩ 1000).roundHalfUp = 5000 ∧
    (5 : Nat) ≠ 5000 :=
  ⟨rfl, rfl, by decide⟩

/-- C7 amended: pluralization is honoured exactly for the plural forms the
resolver's keyword patterns cover — "lakhs"/"lacs" (and "laks"), "crores"
(and "crors"), "millions" — while "thousands" and "billions" match no
keyword and fall through to the trailing-letter fallback, keeping
multiplier 1 and no unit. -/
theorem plural_suffix_amended :
    multOfSuffix "lakhs".data = (100000, some "lakh".data) ∧
    multOfSuffix "lacs".data = (100000, some "lakh".data) ∧
    multOfSuffix "crores".data = (10000000, some "crore".data) ∧
    multOfSuffix "millions".data = (1000000, some "million".data) ∧
    multOfSuffix "thousands".data = (1, none) ∧
    multOfSuffix "billions".data = (1, none) ∧
    extractAmounts "increase limit to 5 lakhs" =
      Except.ok [⟨" 5 lakhs", 17, 25, "unknown", 500000, "lakh", "5", some "lakhs"⟩] :=
  ⟨rfl, rfl, rfl, rfl, rfl, rfl, rfl⟩

/-- C8: `extract_amounts` is deterministic and mutates no process-wide
state: with the read-only globals threaded explicitly, a call returns the
globals unchanged, and a second call on the same text under the returned
globals yields the identical result. -/
theorem extract_deterministic_readonly :
    ∀ (g : Globals) (t : String),
      (extractAmountsG g t).2 = g ∧
      (extractAmountsG (extractAmountsG g t).2 t).1 = (extractAmountsG g t).1 :=
  fun _g _t => ⟨rfl, rfl⟩

/-- C9: every match of the numeric pattern carries a non-empty `number`
group (branch A), and wherever the mandatory-currency branch B matches,
branch A matches too — so the branch-B handling code is unreachable. -/
theorem branchB_dead :
    ∀ cs : List Char,
      (∀ (len : Nat) (g : NumGroups), tokenMatchAt cs = some (len, g) →
        ∃ n, g.number = some n ∧ n ≠ []) ∧
      ((branchB_aux currencyCands cs).isSome → (branchA_aux currencyCands cs).isSome) := by
  intro cs
  constructor
  · intro len g h
    unfold tokenMatchAt at h
    rcases ha : branchA_aux currencyCands cs with _ | ⟨mark, num, rest, suf⟩
    · rw [ha] at h
      dsimp only at h
      rcases hb : branchB_aux currencyCands cs with _ | ⟨mark2, num2, rest2⟩
      · rw [hb] at h; simp at h
      · exfalso
        have hs := branchA_aux_isSome_of_branchB_aux currencyCands cs (by rw [hb]; simp)
        rw [ha] at hs
        simp at hs
    · rw [ha] at h
      simp only [Option.some.injEq] at h
      injection h with h1 h2
      subst h2
      exact ⟨num, rfl, branchA_aux_num_ne_nil currencyCands cs mark num rest suf ha⟩
  · exact branchA_aux_isSome_of_branchB_aux currencyCands cs

/-- Witness for C9 at a concrete match. -/
theorem branchB_dead_witness :
    (∃ n, (⟨some "5".data, some "₹".data, none, none, none⟩ : NumGroups).number =
      some n ∧ n ≠ []) ∧
    (branchA_aux currencyCands "₹5".data).isSome :=
  ⟨(branchB_dead "₹5".data).1 2 ⟨some "5".data, some "₹".data, none, none, none⟩ rfl,
   (branchB_dead "₹5".data).2 rfl⟩

/-- C10: on "increase to ₹2.5 crore" the worded scanner matches the bare
digit run "2" (its word class includes digits), the word-to-number path
accepts the digit string, and `extract_amounts` emits an additional mention
for it with currency "INR", overlapping the numeric-scanner mention. -/
theorem worded_digit_mention :
    extractAmounts "increase to ₹2.5 crore" =
      Except.ok
        [⟨"₹2.5 crore", 12, 22, "INR", 25000000, "crore", "2.5", some "crore"⟩,
         ⟨"2", 13, 14, "INR", 2, "1", "2", none⟩] ∧
    12 ≤ 13 ∧ 14 ≤ 22 :=
  ⟨rfl, by decide, by decide⟩
